import Mathlib

/-!
Verification development for the tool-calling dispatch loop, memory store and
page-fetch tool of the `agent-langchain-project` repository.

The Python sources are shallowly embedded as executable Lean definitions:

* `parseToolCall`, `dispatchLoop`, `runWithTools` embed
  `tool_dispatcher.py` (`_parse_tool_call`, `_TIME_QUERY_RE`,
  `_answer_time_shortcircuit`, `run_with_tools`);
* `Store.add`, `persistDoc`, `loadStore`, `persistSteps` embed
  `agent_langchain_project/memory.py` (`JsonMemoryFallback`);
* `fetchRenderedPage` embeds `agent_langchain_project/tools_fetch.py`.

Modelling conventions:

* The model callable `llm_callable` is embedded as a function
  `Nat → String → Except String String`: the `Nat` is the invocation index
  (Python closures may be stateful; indexing the call makes that state
  explicit), `Except.error` models a raised exception whose `str` is the
  payload.  Tool callables are embedded the same way.
* Wall-clock values (`datetime.now().year`, `time.time()` elapsed strings)
  are nondeterministic inputs and are passed in as explicit parameters.
* `run_with_tools` is instrumented to also return the list of strings passed
  to the model callable, in call order; the Python function's return value is
  the first component and the list length is the number of model calls.
* Python `str` values are Lean `String`s; `re` matching and `str` methods
  used by the source (`strip`, `splitlines`, truthiness) are embedded
  character-by-character below, covering the ASCII whitespace classes the
  source's inputs exercise.
* `json.loads` is embedded by `jsonLoads`, a recursive-descent parser for the
  JSON subset the repository produces and consumes (all JSON values with
  integer numerals; non-integer numerals and surrogate escapes are rejected
  rather than parsed, which no claim exercises).
-/

/-- Whitespace test matching Python's `str.strip` / regex `\s` on the ASCII
range (space, tab, newline, carriage return, vertical tab, form feed). -/
def pyWs (c : Char) : Bool :=
  c = ' ' || c = '\t' || c = '\n' || c = '\r' || c = '\x0b' || c = '\x0c'

/-- Python `str.strip()` on a character list. -/
def pyStripL (l : List Char) : List Char :=
  ((l.dropWhile pyWs).reverse.dropWhile pyWs).reverse

/-- Python `str.strip()`. -/
def strStrip (s : String) : String := String.mk (pyStripL s.data)

/-- Line-boundary characters recognised by Python `str.splitlines`. -/
def pyNl (c : Char) : Bool :=
  c = '\n' || c = '\r' || c = '\x0b' || c = '\x0c' || c = '\x1c' ||
  c = '\x1d' || c = '\x1e' || c = '\x85' || c = '\u2028' || c = '\u2029'

/-- Python `str.splitlines`: `\r\n` counts as a single boundary; a trailing
segment is kept only when non-empty. The accumulator holds the current line
reversed. -/
def splitlinesAux : List Char → List Char → List (List Char)
  | [], cur => if cur.isEmpty then [] else [cur.reverse]
  | '\r' :: '\n' :: rest, cur => cur.reverse :: splitlinesAux rest []
  | c :: rest, cur =>
    if pyNl c then cur.reverse :: splitlinesAux rest []
    else splitlinesAux rest (c :: cur)

/-- Python `text.splitlines()`. -/
def pySplitlines (l : List Char) : List (List Char) := splitlinesAux l []

/-- ASCII-case-insensitive character equality (re.IGNORECASE on the ASCII
literals the dispatcher's regexes use). -/
def ciEq (a b : Char) : Bool := a.toLower == b.toLower

/-- Drop a case-insensitive literal from the front of `s`; `none` when `s`
does not start with it. -/
def dropCi : List Char → List Char → Option (List Char)
  | [], s => some s
  | _ :: _, [] => none
  | l :: ls, c :: cs => if ciEq l c then dropCi ls cs else none

/-- Character class `[A-Za-z0-9_]` of `_TOOL_CALL_RE`'s name group. -/
def isNameChar (c : Char) : Bool := c.isAlpha || c.isDigit || c = '_'

/-- Embedding of `_TOOL_CALL_RE.match` on one already-stripped line:
`CALL_TOOL:\s*([A-Za-z0-9_]+)(?:\s+(.*))?$` (case-insensitive), followed by
the source's `group(1).strip()` / `(group(2) or "").strip()`. -/
def lineDirective (line : List Char) : Option (String × String) :=
  match dropCi "CALL_TOOL:".data line with
  | none => none
  | some rest =>
    let afterWs := rest.dropWhile pyWs
    let name := afterWs.takeWhile isNameChar
    let after := afterWs.dropWhile isNameChar
    if name.isEmpty then none
    else
      match after with
      | [] => some (String.mk name, "")
      | c :: _ =>
        if pyWs c then some (String.mk name, String.mk (pyStripL after))
        else none

/-- The line loop of `_parse_tool_call`: strip each line, skip empty lines,
return the first line matching `_TOOL_CALL_RE`. -/
def scanLines : List (List Char) → Option (String × String)
  | [] => none
  | l :: ls =>
    let s := pyStripL l
    if s.isEmpty then scanLines ls
    else
      match lineDirective s with
      | some r => some r
      | none => scanLines ls

/-- Index of the last occurrence of `c` in `l`, if any. -/
def lastIdxOf (c : Char) (l : List Char) : Option Nat :=
  (l.foldl (fun (st : Nat × Option Nat) x =>
    (st.1 + 1, if x == c then some st.1 else st.2)) (0, none)).2

/-- Embedding of `_TOOL_CALL_JSON_RE.search`: the leftmost position where the
case-insensitive literal `CALL_TOOL_JSON:` is followed (after a maximal
whitespace run) by `{`; the capture `(\{.*\})` runs greedily (DOTALL) from
that brace to the last `}` of the text. -/
def findJsonCapture : List Char → Option (List Char)
  | [] => none
  | s@(_ :: rest) =>
    match dropCi "CALL_TOOL_JSON:".data s with
    | some afterLit =>
      let afterWs := afterLit.dropWhile pyWs
      match afterWs with
      | '\x7b' :: _ =>
        match lastIdxOf '\x7d' afterWs with
        | some i => if 1 ≤ i then some (afterWs.take (i + 1)) else findJsonCapture rest
        | none => findJsonCapture rest
      | _ => findJsonCapture rest
    | none => findJsonCapture rest

/-- Python values produced by `json.loads` (numbers restricted to integers;
see the module comment). Object entries keep source order; duplicate keys are
resolved last-wins, as `dict` does. -/
inductive Json where
  | null : Json
  | bool : Bool → Json
  | num : Int → Json
  | str : String → Json
  | arr : List Json → Json
  | obj : List (String × Json) → Json
deriving Repr

/-- JSON insignificant whitespace (RFC 8259: space, tab, newline, return). -/
def jsonWs (c : Char) : Bool := c = ' ' || c = '\t' || c = '\n' || c = '\r'

/-- Value of one hex digit, if `c` is one. -/
def hexVal (c : Char) : Option Nat :=
  if '0' ≤ c ∧ c ≤ '9' then some (c.toNat - '0'.toNat)
  else if 'a' ≤ c ∧ c ≤ 'f' then some (c.toNat - 'a'.toNat + 10)
  else if 'A' ≤ c ∧ c ≤ 'F' then some (c.toNat - 'A'.toNat + 10)
  else none

/-- Parse the body of a JSON string (the opening quote already consumed),
accumulating decoded characters in reverse. Raw control characters are
rejected as `json.loads` does in strict mode; `\uXXXX` escapes are decoded
when the code point is a scalar value. -/
def parseStrAux : List Char → List Char → Option (String × List Char)
  | [], _ => none
  | '"' :: r, acc => some (String.mk acc.reverse, r)
  | '\\' :: e :: r, acc =>
    match e with
    | '"' => parseStrAux r ('"' :: acc)
    | '\\' => parseStrAux r ('\\' :: acc)
    | '/' => parseStrAux r ('/' :: acc)
    | 'b' => parseStrAux r ('\x08' :: acc)
    | 'f' => parseStrAux r ('\x0c' :: acc)
    | 'n' => parseStrAux r ('\n' :: acc)
    | 'r' => parseStrAux r ('\r' :: acc)
    | 't' => parseStrAux r ('\t' :: acc)
    | 'u' =>
      match r with
      | h1 :: h2 :: h3 :: h4 :: r' =>
        match hexVal h1, hexVal h2, hexVal h3, hexVal h4 with
        | some a, some b, some c, some d =>
          let n := ((a * 16 + b) * 16 + c) * 16 + d
          if h : n < 0xd800 ∨ 0xdfff < n ∧ n < 0x110000 then
            parseStrAux r' (Char.ofNatAux n h :: acc)
          else none
        | _, _, _, _ => none
      | _ => none
    | _ => none
  | c :: r, acc => if c.toNat < 0x20 then none else parseStrAux r (c :: acc)

/-- Parse a JSON integer numeral (optional minus, no leading zeros); inputs
that continue with a fraction or exponent are outside the embedded subset. -/
def parseNum (l : List Char) : Option (Json × List Char) :=
  let (neg, l') := match l with
    | '-' :: t => (true, t)
    | _ => (false, l)
  let digits := l'.takeWhile Char.isDigit
  let rest := l'.dropWhile Char.isDigit
  if digits.isEmpty then none
  else if 2 ≤ digits.length ∧ digits.headD '0' = '0' then none
  else
    match rest with
    | '.' :: _ => none
    | 'e' :: _ => none
    | 'E' :: _ => none
    | _ =>
      let n : Nat := digits.foldl (fun a c => a * 10 + (c.toNat - '0'.toNat)) 0
      some (Json.num (if neg then -(n : Int) else (n : Int)), rest)

mutual

/-- Recursive-descent JSON value parser (fuelled; `jsonLoads` supplies enough
fuel for any input). Returns the value and the unconsumed remainder. -/
def parseJsonVal : Nat → List Char → Option (Json × List Char)
  | 0, _ => none
  | fuel + 1, l =>
    match l.dropWhile jsonWs with
    | 'n' :: 'u' :: 'l' :: 'l' :: r => some (Json.null, r)
    | 't' :: 'r' :: 'u' :: 'e' :: r => some (Json.bool true, r)
    | 'f' :: 'a' :: 'l' :: 's' :: 'e' :: r => some (Json.bool false, r)
    | '"' :: r =>
      match parseStrAux r [] with
      | some (s, r') => some (Json.str s, r')
      | none => none
    | '[' :: r =>
      match (r.dropWhile jsonWs) with
      | ']' :: r' => some (Json.arr [], r')
      | _ => parseArrItems fuel r []
    | '\x7b' :: r =>
      match (r.dropWhile jsonWs) with
      | '\x7d' :: r' => some (Json.obj [], r')
      | _ => parseObjItems fuel r []
    | c :: r => if c.isDigit || c = '-' then parseNum (c :: r) else none
    | [] => none

/-- Comma-separated array items up to `]`; accumulates in reverse. -/
def parseArrItems : Nat → List Char → List Json → Option (Json × List Char)
  | 0, _, _ => none
  | fuel + 1, l, acc =>
    match parseJsonVal fuel l with
    | none => none
    | some (v, r) =>
      match r.dropWhile jsonWs with
      | ',' :: r' => parseArrItems fuel r' (v :: acc)
      | ']' :: r' => some (Json.arr (v :: acc).reverse, r')
      | _ => none

/-- Comma-separated `"key": value` members up to `}`; accumulates in
reverse. -/
def parseObjItems : Nat → List Char → List (String × Json) →
    Option (Json × List Char)
  | 0, _, _ => none
  | fuel + 1, l, acc =>
    match l.dropWhile jsonWs with
    | '"' :: r =>
      match parseStrAux r [] with
      | none => none
      | some (k, r') =>
        match r'.dropWhile jsonWs with
        | ':' :: r'' =>
          match parseJsonVal fuel r'' with
          | none => none
          | some (v, r3) =>
            match r3.dropWhile jsonWs with
            | ',' :: r4 => parseObjItems fuel r4 ((k, v) :: acc)
            | '\x7d' :: r4 => some (Json.obj ((k, v) :: acc).reverse, r4)
            | _ => none
        | _ => none
    | _ => none

end

/-- Embedding of `json.loads`: parse one document and require only
whitespace after it (`Extra data` otherwise). -/
def jsonLoads (l : List Char) : Option Json :=
  match parseJsonVal (l.length + 1) l with
  | some (v, rest) => if (rest.dropWhile jsonWs).isEmpty then some v else none
  | none => none

/-- Python truthiness (`if name:`, `a or b`) on embedded JSON values. -/
def jsonTruthy : Json → Bool
  | .null => false
  | .bool b => b
  | .num n => n != 0
  | .str s => !s.isEmpty
  | .arr xs => !xs.isEmpty
  | .obj kvs => !kvs.isEmpty

/-- Python `dict.get(k)` with default `None`; duplicate keys resolve to the
last occurrence, as `json.loads` builds the `dict`. -/
def pyGet (kvs : List (String × Json)) (k : String) : Json :=
  match kvs.reverse.find? (fun p => p.1 == k) with
  | some p => p.2
  | none => Json.null

/-- Python `a or b`. -/
def pyOr (a b : Json) : Json := if jsonTruthy a then a else b

mutual

/-- Python `repr` of an embedded value (string escaping inside nested
containers is not reproduced; no claim exercises it). -/
def pyRepr : Json → String
  | .null => "None"
  | .bool true => "True"
  | .bool false => "False"
  | .num n => toString n
  | .str s => "'" ++ s ++ "'"
  | .arr xs => "[" ++ pyReprList xs ++ "]"
  | .obj kvs => "\x7b" ++ pyReprObj kvs ++ "\x7d"

/-- Comma-separated `repr`s of array elements. -/
def pyReprList : List Json → String
  | [] => ""
  | [x] => pyRepr x
  | x :: y :: xs => pyRepr x ++ ", " ++ pyReprList (y :: xs)

/-- Comma-separated `'key': repr(value)` renderings of dict entries. -/
def pyReprObj : List (String × Json) → String
  | [] => ""
  | [(k, v)] => "'" ++ k ++ "': " ++ pyRepr v
  | (k, v) :: kv :: kvs => "'" ++ k ++ "': " ++ pyRepr v ++ ", " ++ pyReprObj (kv :: kvs)

end

/-- Python `str()` of an embedded value (identity on strings, `repr`-style
rendering of containers, `True`/`False`/`None` keywords). -/
def pyStr : Json → String
  | .str s => s
  | j => pyRepr j

/-- JSON branch of `_parse_tool_call`: regex search, `json.loads`, key
extraction with `or`-defaults, truthiness test, and `name.strip()` /
`str(args).strip()`. Every failure (`json` exception, falsy name, or the
`AttributeError` from `.strip()` on a non-string name) returns `none`, which
in `_parse_tool_call` falls through to the line-oriented loop. -/
def jsonDirective (text : List Char) : Option (String × String) :=
  match findJsonCapture text with
  | none => none
  | some cap =>
    match jsonLoads cap with
    | none => none
    | some payload =>
      match payload with
      | Json.obj kvs =>
        let name := pyOr (pyGet kvs "tool") (pyGet kvs "name")
        let args := pyOr (pyOr (pyGet kvs "args") (pyGet kvs "arguments")) (Json.str "")
        if jsonTruthy name then
          match name with
          | Json.str s => some (strStrip s, strStrip (pyStr args))
          | _ => none
        else none
      | _ => none

/-- Embedding of `_parse_tool_call`: empty text parses to nothing; the JSON
form is tried first, then the line loop. -/
def parseToolCall (text : String) : Option (String × String) :=
  if text = "" then none
  else
    match jsonDirective text.data with
    | some r => some r
    | none => scanLines (pySplitlines text.data)

/-- The alternatives of `_TIME_QUERY_RE`, with the inner group
`现在是(哪年|什么年)` expanded. -/
def timeQueryPatterns : List String :=
  ["今年是哪年", "今年是哪一年", "现在是哪年", "现在是什么年", "当前年份",
   "现在是哪一年", "现在是什么年"]

/-- Test whether `pat` occurs at the head of the second list. -/
def subAt : List Char → List Char → Bool
  | [], _ => true
  | _ :: _, [] => false
  | p :: ps, c :: cs => p == c && subAt ps cs

/-- Substring occurrence test (Python `pat in s` / `re.search` on a literal
alternation). -/
def containsSubAux : List Char → List Char → Bool
  | [], pat => pat.isEmpty
  | l@(_ :: t), pat => subAt pat l || containsSubAux t pat

/-- String-level substring test. -/
def strContains (s pat : String) : Bool := containsSubAux s.data pat.data

/-- Embedding of `_TIME_QUERY_RE.search(user_prompt or "") is not None`. -/
def timeQueryMatch (s : String) : Bool :=
  timeQueryPatterns.any (fun p => strContains s p)

/-- Embedding of `_answer_time_shortcircuit`; `year` is the wall-clock value
`datetime.now().year`. -/
def answerTimeShortcircuit (year : Nat) (userPrompt : String) : Option String :=
  if timeQueryMatch userPrompt then some ("今年是 " ++ toString year ++ " 年。")
  else none

/-- A registered tool (`tools.Tool` dataclass): name plus callable; the
callable's `Except.error` models a raised exception. -/
structure Tool where
  name : String
  func : String → Except String String

/-- Lookup in `name2tool = {t.name: t for t in tools}` (duplicate names:
last wins, as in a dict comprehension). -/
def lookupTool (tools : List Tool) (n : String) : Option Tool :=
  tools.reverse.find? (fun t => t.name == n)

/-- Tool invocation with the dispatcher's `except` branch: an exception
becomes the `工具执行异常` result text. -/
def runToolFunc (t : Tool) (args : String) : String :=
  match t.func args with
  | .ok r => r
  | .error e => "工具执行异常：" ++ e

/-- Context appendix for an unknown tool (`[ToolError]` branch). -/
def unknownToolObs (toolName response : String) : String :=
  "\n\n[ToolError] 未找到工具: " ++ toolName ++ "\n模型原文:\n" ++ response ++
  "\n请不要再尝试调用不存在的工具。"

/-- The `observation` f-string of `run_with_tools`; `elapsedStr` stands for
the wall-clock `f"{elapsed:.2f}"` rendering. -/
def toolObservation (toolName toolArgs toolResult elapsedStr : String) : String :=
  "\n\n[ToolInvocation]\nTool: " ++ toolName ++ "\nArgs: " ++ toolArgs ++
  "\nResult (truncated):\n" ++ toolResult ++ "\n(执行耗时: " ++ elapsedStr ++ "s)\n"

/-- Continuation instruction appended after every tool observation. -/
def continueMsg : String :=
  "\n请基于上面的工具结果继续并生成最终回答（如果需要可再次发出 CALL_TOOL: 指令）。"

/-- Suffix appended to the context for the final forced-answer model call. -/
def exhaustMsg : String :=
  "\n\n已达到最大工具调用次数，请基于现有信息给出最终回答。"

/-- Outcome of the final forced-answer model call, including its `except`
branch. -/
def finalizeAnswer : Except String String → String
  | .ok f => f
  | .error e => "LLM 调用失败（终结轮）：" ++ e

/-- The `for call_idx in range(max_tool_calls + 1)` loop of `run_with_tools`,
followed by the forced final call. `fuel` is the number of loop iterations
still allowed, `calls` the number of model calls already made (so `llm` is
applied at the correct invocation index), `ctx` the accumulated context.
Returns the answer and the list of strings passed to the model. -/
def dispatchLoop (llm : Nat → String → Except String String) (tools : List Tool)
    (elapsed : Nat → String) : Nat → Nat → String → String × List String
  | 0, calls, ctx =>
    (finalizeAnswer (llm calls (ctx ++ exhaustMsg)), [ctx ++ exhaustMsg])
  | fuel + 1, calls, ctx =>
    match llm calls ctx with
    | .error e => ("LLM 调用失败：" ++ e, [ctx])
    | .ok response =>
      match parseToolCall response with
      | none => (response, [ctx])
      | some (toolName, toolArgs) =>
        match lookupTool tools toolName with
        | none =>
          let r := dispatchLoop llm tools elapsed fuel (calls + 1)
            (ctx ++ unknownToolObs toolName response)
          (r.1, ctx :: r.2)
        | some tool =>
          let toolResult := runToolFunc tool toolArgs
          let ctx2 := ctx ++ "\n\n" ++ strStrip response ++ "\n" ++
            toolObservation toolName toolArgs toolResult (elapsed calls) ++ continueMsg
          let r := dispatchLoop llm tools elapsed fuel (calls + 1) ctx2
          (r.1, ctx :: r.2)

/-- The `prompt_inject` module is absent from the repository, so the
dispatcher's fallback `inject_persona_to_system(x) = x or ""` is the live
code; `none` models Python `None`. -/
def injectPersonaToSystem (x : Option String) : String := x.getD ""

/-- Embedding of `run_with_tools`. `year` models `datetime.now().year`,
`elapsed i` the `f"{elapsed:.2f}"` rendering in round `i`; the second
component of the result is the list of model-call inputs in order (empty when
the time short-circuit answers without the model). -/
def runWithTools (year : Nat) (llm : Nat → String → Except String String)
    (userPrompt : String) (tools : List Tool) (systemPrompt : Option String)
    (maxToolCalls : Nat) (elapsed : Nat → String) : String × List String :=
  match answerTimeShortcircuit year userPrompt with
  | some timeAnswer => (timeAnswer, [])
  | none =>
    let systemWithPersona := injectPersonaToSystem systemPrompt
    let context :=
      if systemWithPersona ≠ "" then
        strStrip systemWithPersona ++ "\n\n" ++ strStrip userPrompt
      else strStrip userPrompt
    dispatchLoop llm tools elapsed (maxToolCalls + 1) 0 context

/-- In-memory state of `JsonMemoryFallback`: the two parallel sequences and
the `AGENT_MAX_MEMORY_ITEMS` bound read at construction. Metadata dicts are
embedded as `Json` values (`Json.null` models Python `None`). -/
structure Store where
  texts : List String
  metadatas : List Json
  maxItems : Nat

/-- The trim branch of `add` under its `try`/`except`: `texts.pop(0)` then
`metadatas.pop(0)`. A `pop(0)` on an empty list raises `IndexError`, which
the `except` swallows, keeping whatever was mutated before the raise. -/
def popPair (texts : List String) (metas : List Json) : List String × List Json :=
  match texts with
  | [] => ([], metas)
  | _ :: ts =>
    match metas with
    | [] => (ts, [])
    | _ :: ms => (ts, ms)

/-- Embedding of `JsonMemoryFallback.add`. `meta` is the optional argument
(`Json.null` for Python `None`) and `nowMeta` models the wall-clock default
`{"timestamp": time.time()}` taken when `meta` is falsy. Returns the new
state and the returned index `idx = len(self.texts)` measured after the
trim. -/
def Store.add (m : Store) (text : String) (meta nowMeta : Json) : Store × Nat :=
  let (ts, ms) :=
    if m.maxItems ≤ m.texts.length then popPair m.texts m.metadatas
    else (m.texts, m.metadatas)
  let idx := ts.length
  ({ m with texts := ts ++ [text], metadatas := ms ++ [pyOr meta nowMeta] }, idx)

/-- The document `json.dump`ed by `persist`:
`{"texts": self.texts, "metadatas": self.metadatas}`. -/
def persistDoc (m : Store) : Json :=
  Json.obj [("texts", Json.arr (m.texts.map Json.str)),
            ("metadatas", Json.arr m.metadatas)]

/-- Decode a list of JSON strings back to the typed `texts` sequence;
`none` when an element is not a string, a state the typed model cannot hold
(and `persist` never writes). -/
def decodeStrList : List Json → Option (List String)
  | [] => some []
  | Json.str s :: rest => (decodeStrList rest).map (fun ts => s :: ts)
  | _ :: _ => none

/-- Decode the `texts` entry read back by `__init__`
(`data.get("texts", [])`). -/
def loadTexts (doc : Json) : Option (List String) :=
  match doc with
  | Json.obj kvs =>
    match pyOr (pyGet kvs "texts") (Json.arr []) with
    | Json.arr xs => decodeStrList xs
    | _ => none
  | _ => none

/-- Decode the `metadatas` entry read back by `__init__`
(`data.get("metadatas", [])`). -/
def loadMetas (doc : Json) : Option (List Json) :=
  match doc with
  | Json.obj kvs =>
    match pyOr (pyGet kvs "metadatas") (Json.arr []) with
    | Json.arr xs => some xs
    | _ => none
  | _ => none

/-- Fresh construction of `JsonMemoryFallback` over an existing file whose
parsed content is `doc` (the atomic rename of `persist` guarantees the file
holds exactly one complete dumped document); `k` is the
`AGENT_MAX_MEMORY_ITEMS` value in the new process. -/
def loadStore (doc : Json) (k : Nat) : Option Store :=
  match loadTexts doc, loadMetas doc with
  | some ts, some ms => some ⟨ts, ms, k⟩
  | _, _ => none

/-- Failure points of `persist`, one per fallible statement in its `try`
block. -/
inductive PersistFail where
  | makedirsFail : PersistFail
  | mkstempFail : PersistFail
  | writeFail : PersistFail
  | replaceFail : PersistFail
deriving DecidableEq

/-- What the two paths hold: the store path's parsed content (if the file
exists) and the temp file's content (`none`: absent; `some none`: created
but not completely written; `some (some d)`: holds document `d`). -/
structure PersistFS where
  target : Option Json
  temp : Option (Option Json)

/-- Embedding of `JsonMemoryFallback.persist` over the file model: makedirs,
`mkstemp`, `json.dump` into the temp file, `os.replace` onto the target.
`fail` injects an exception at one statement (`none`: no failure); the
`except` branch logs and returns `False`. The Boolean result is total by
construction: the Python function never raises to its caller. -/
def persistSteps (m : Store) (fs : PersistFS) (fail : Option PersistFail) :
    Bool × PersistFS :=
  if fail = some PersistFail.makedirsFail then (false, fs)
  else
    let fs1 : PersistFS := { fs with temp := some none }
    if fail = some PersistFail.mkstempFail then (false, fs1)
    else if fail = some PersistFail.writeFail then (false, fs1)
    else
      let fs2 : PersistFS := { fs1 with temp := some (some (persistDoc m)) }
      if fail = some PersistFail.replaceFail then (false, fs2)
      else (true, { target := some (persistDoc m), temp := none })

/-- Outcome of one Playwright `page.goto` attempt: rendered content, a
`PWTimeout`, or any other exception. -/
inductive PWAttempt where
  | ok : String → PWAttempt
  | timeoutErr : String → PWAttempt
  | err : String → PWAttempt

/-- Whether an attempt failed (either exception branch). -/
def pwFailed : PWAttempt → Bool
  | .ok _ => false
  | .timeoutErr _ => true
  | .err _ => true

/-- The Playwright environment: the import/launch machinery is unavailable
(with the exception text), or available with `goto i t` the outcome of
attempt `i` run with `timeout=t` milliseconds. -/
inductive PWEnv where
  | unavailable : String → PWEnv
  | available : (Nat → Nat → PWAttempt) → PWEnv

/-- Outcome of the `requests.get` fallback. -/
inductive ReqEnv where
  | rok : String → ReqEnv
  | rerr : String → ReqEnv

/-- Result dict of `fetch_rendered_page`. -/
structure FetchResult where
  source : String
  text : String
  error : Option String
  attempts : Nat
deriving DecidableEq

/-- Python `f"{last_err}"` (an `Option String` rendered with `None`). -/
def optStr : Option String → String
  | none => "None"
  | some s => s

/-- The `for attempt in range(max_retries + 1)` rendering loop. Arguments:
remaining iterations and the current `attempt` index. Returns the rendered
text (if an attempt succeeded), the number of iterations entered, the last
error recorded by this and later attempts, and the list of
`int(cur_timeout * 1000)` values passed to `page.goto`, in order. -/
def pwAttempts (goto : Nat → Nat → PWAttempt) (timeout : Nat) :
    Nat → Nat → Option String × Nat × Option String × List Nat
  | 0, _ => (none, 0, none, [])
  | n + 1, idx =>
    let tmo := timeout * 2 ^ idx * 1000
    match goto idx tmo with
    | .ok text => (some text, 1, none, [tmo])
    | .timeoutErr m =>
      let (r, cnt, le, tms) := pwAttempts goto timeout n (idx + 1)
      let thisErr := "playwright timeout (attempt " ++ toString (idx + 1) ++ "): " ++ m
      (r, cnt + 1, some (le.getD thisErr), tmo :: tms)
    | .err m =>
      let (r, cnt, le, tms) := pwAttempts goto timeout n (idx + 1)
      let thisErr := "playwright error (attempt " ++ toString (idx + 1) ++ "): " ++ m
      (r, cnt + 1, some (le.getD thisErr), tmo :: tms)

/-- The `requests` fallback block, building the `"requests"` or `"error"`
result with `attempts + 1`. -/
def requestsFallback (req : ReqEnv) (lastErr : Option String) (attempts : Nat) :
    FetchResult :=
  match req with
  | .rok text =>
    { source := "requests", text := text,
      error := some ("playwright_failed: " ++ optStr lastErr),
      attempts := attempts + 1 }
  | .rerr e =>
    { source := "error", text := "",
      error := some ("playwright_failed: " ++ optStr lastErr ++
        "; requests_failed: " ++ e),
      attempts := attempts + 1 }

/-- Embedding of `fetch_rendered_page` over the environment model, also
returning the list of `goto` timeouts used (the instrumentation for the
backoff property). -/
def fetchRenderedPage (env : PWEnv) (req : ReqEnv) (timeout maxRetries : Nat) :
    FetchResult × List Nat :=
  match env with
  | .unavailable msg =>
    (requestsFallback req (some ("playwright import/launch error: " ++ msg)) 0, [])
  | .available goto =>
    match pwAttempts goto timeout (maxRetries + 1) 0 with
    | (some text, attempts, _, tms) =>
      ({ source := "playwright", text := text, error := none,
         attempts := attempts }, tms)
    | (none, attempts, lastErr, tms) =>
      (requestsFallback req lastErr attempts, tms)

/-- Source of the result dict's `source` field when the `requests` fallback
runs: `"requests"` on success, `"error"` when that too raises. -/
def reqSource : ReqEnv → String
  | .rok _ => "requests"
  | .rerr _ => "error"

/-- No-op tool used by the round-budget scenarios. -/
def noopTool : Tool := ⟨"noop", fun _ => Except.ok "ok"⟩

/-- Model stub that answers every call with a valid line-form directive for
the registered no-op tool. -/
def stubLLM : Nat → String → Except String String :=
  fun _ _ => Except.ok "CALL_TOOL: noop"

/-- Model stub that always names a tool absent from the registry. -/
def ghostLLM : Nat → String → Except String String :=
  fun _ _ => Except.ok "CALL_TOOL: ghost"

/-- Fixed elapsed-time rendering for concrete runs. -/
def stubElapsed : Nat → String := fun _ => "0.00"

/-- A 4000-character tool result. -/
def bigResult : String := String.mk (List.replicate 4000 'a')

/-- Tool returning the 4000-character result. -/
def bigTool : Tool := ⟨"big", fun _ => Except.ok bigResult⟩

/-- Model stub requesting the big tool. -/
def bigLLM : Nat → String → Except String String :=
  fun _ _ => Except.ok "CALL_TOOL: big"

/-- A response carrying a line-form directive for `Bar` and a JSON-form
directive for `Foo`. -/
def bothFormsText : String :=
  "CALL_TOOL: Bar x\nCALL_TOOL_JSON: \x7b\"tool\":\"Foo\",\"args\":\"hello\"\x7d"

/-- Two-record store at capacity 2. -/
def demoStore : Store := ⟨["a", "b"], [Json.null, Json.null], 2⟩

/-- A concrete timestamp metadata value. -/
def demoTs : Json := Json.obj [("timestamp", Json.num 1700000000)]

/-- Rendering environment whose every `goto` attempt times out. -/
def envAllTimeout : PWEnv := PWEnv.available (fun _ _ => PWAttempt.timeoutErr "t")

theorem subAt_self_append (pat rest : List Char) : subAt pat (pat ++ rest) = true := by
  induction pat with
  | nil => rfl
  | cons p ps ih => simp [subAt, ih]

theorem subAt_append_right (pat l ys : List Char) (h : subAt pat l = true) :
    subAt pat (l ++ ys) = true := by
  induction pat generalizing l with
  | nil => rfl
  | cons p ps ih =>
    cases l with
    | nil => simp [subAt] at h
    | cons c cs =>
      simp only [subAt, Bool.and_eq_true] at h
      simp [subAt, h.1, ih cs h.2]

theorem containsSubAux_nil_pat (ys : List Char) : containsSubAux ys [] = true := by
  cases ys with
  | nil => rfl
  | cons y t => simp [containsSubAux, subAt]

theorem containsSubAux_self (pat ys : List Char) :
    containsSubAux (pat ++ ys) pat = true := by
  cases pat with
  | nil => exact containsSubAux_nil_pat ys
  | cons p ps =>
    simp only [List.cons_append, containsSubAux, Bool.or_eq_true]
    exact Or.inl (subAt_self_append (p :: ps) ys)

theorem containsSubAux_append_right (xs ys pat : List Char)
    (h : containsSubAux ys pat = true) : containsSubAux (xs ++ ys) pat = true := by
  induction xs with
  | nil => simpa using h
  | cons x t ih => simp [containsSubAux, ih]

theorem containsSubAux_append_left (xs ys pat : List Char)
    (h : containsSubAux xs pat = true) : containsSubAux (xs ++ ys) pat = true := by
  induction xs with
  | nil =>
    simp only [containsSubAux, List.isEmpty_iff] at h
    subst h
    simpa using containsSubAux_nil_pat ys
  | cons x t ih =>
    simp only [containsSubAux, Bool.or_eq_true] at h
    rcases h with h | h
    · simp only [List.cons_append, containsSubAux, Bool.or_eq_true]
      exact Or.inl (subAt_append_right _ _ _ h)
    · simp [containsSubAux, ih h]

theorem strContains_middle (a b c : String) : strContains (a ++ (b ++ c)) b = true := by
  simp only [strContains, String.data_append]
  exact containsSubAux_append_right _ _ _ (containsSubAux_self _ _)

theorem containsSubAux_refl (pat : List Char) : containsSubAux pat pat = true := by
  have h := containsSubAux_self pat []
  simpa using h

theorem strContains_suffix (a b : String) : strContains (a ++ b) b = true := by
  simp only [strContains, String.data_append]
  exact containsSubAux_append_right _ _ _ (containsSubAux_refl _)

theorem strContains_append_right (s t pat : String) (h : strContains t pat = true) :
    strContains (s ++ t) pat = true := by
  simp only [strContains, String.data_append]
  exact containsSubAux_append_right _ _ _ h

theorem strContains_append_left (s t pat : String) (h : strContains s pat = true) :
    strContains (s ++ t) pat = true := by
  simp only [strContains, String.data_append]
  exact containsSubAux_append_left _ _ _ h

theorem getLast?_cons_of_ne_nil {α : Type} (x : α) (l : List α) (h : l ≠ []) :
    (x :: l).getLast? = l.getLast? := by
  cases l with
  | nil => exact absurd rfl h
  | cons a t => exact List.getLast?_cons_cons

theorem dispatchLoop_len_pos (llm : Nat → String → Except String String)
    (tools : List Tool) (elapsed : Nat → String) (fuel calls : Nat) (ctx : String) :
    1 ≤ (dispatchLoop llm tools elapsed fuel calls ctx).2.length := by
  cases fuel with
  | zero => simp [dispatchLoop]
  | succ n =>
    simp only [dispatchLoop]
    cases h : llm calls ctx with
    | error e => simp
    | ok r =>
      cases hp : parseToolCall r with
      | none => simp [hp]
      | some p =>
        obtain ⟨nm, args⟩ := p
        cases hl : lookupTool tools nm with
        | none => simp [hp, hl]
        | some t => simp [hp, hl]

theorem dispatchLoop_head (llm : Nat → String → Except String String)
    (tools : List Tool) (elapsed : Nat → String) (fuel calls : Nat) (ctx : String) :
    ∃ ext, (dispatchLoop llm tools elapsed fuel calls ctx).2.head? = some (ctx ++ ext) := by
  cases fuel with
  | zero => exact ⟨exhaustMsg, rfl⟩
  | succ n =>
    refine ⟨"", ?_⟩
    rw [String.append_empty]
    simp only [dispatchLoop]
    cases h : llm calls ctx with
    | error e => simp
    | ok r =>
      cases hp : parseToolCall r with
      | none => simp [hp]
      | some p =>
        obtain ⟨nm, args⟩ := p
        cases hl : lookupTool tools nm with
        | none => simp [hp, hl]
        | some t => simp [hp, hl]

theorem dispatchLoop_all_tools (llm : Nat → String → Except String String)
    (tools : List Tool) (elapsed : Nat → String)
    (h : ∀ i c, ∃ r nm args t, llm i c = Except.ok r ∧
      parseToolCall r = some (nm, args) ∧ lookupTool tools nm = some t) :
    ∀ fuel calls ctx,
      (dispatchLoop llm tools elapsed fuel calls ctx).2.length = fuel + 1 ∧
      ∃ c, (dispatchLoop llm tools elapsed fuel calls ctx).2.getLast? = some (c ++ exhaustMsg) ∧
        (dispatchLoop llm tools elapsed fuel calls ctx).1 =
          finalizeAnswer (llm (calls + fuel) (c ++ exhaustMsg)) := by
  intro fuel
  induction fuel with
  | zero => exact fun calls ctx => ⟨rfl, ctx, rfl, rfl⟩
  | succ n ih =>
    intro calls ctx
    obtain ⟨r, nm, args, t, hr, hp, ht⟩ := h calls ctx
    simp only [dispatchLoop, hr, hp, ht]
    obtain ⟨hlen, c, hlast, hans⟩ := ih (calls + 1)
      (ctx ++ "\n\n" ++ strStrip r ++ "\n" ++
        toolObservation nm args (runToolFunc t args) (elapsed calls) ++ continueMsg)
    have hne : (dispatchLoop llm tools elapsed n (calls + 1)
        (ctx ++ "\n\n" ++ strStrip r ++ "\n" ++
          toolObservation nm args (runToolFunc t args) (elapsed calls) ++ continueMsg)).2 ≠ [] := by
      intro hnil
      rw [hnil] at hlen
      simp at hlen
    refine ⟨?_, c, ?_, ?_⟩
    · simp [hlen]
    · rw [getLast?_cons_of_ne_nil _ _ hne]
      exact hlast
    · rw [hans]
      have : calls + 1 + n = calls + (n + 1) := by omega
      rw [this]

/-- C1 (counterexample): with `max_tool_calls = 0`, a model stub that always
returns a valid `CALL_TOOL` directive for the registered no-op tool, and a
prompt outside the time-query pattern, `run_with_tools` performs 2 model
calls, not the single (`N+1`) call the claim allows — so an `(N+2)`-th model
call does occur. -/
theorem c1_round_budget_counterexample :
    (runWithTools 2026 stubLLM "hi" [noopTool] none 0 stubElapsed).2.length = 2 ∧
    ¬ (runWithTools 2026 stubLLM "hi" [noopTool] none 0 stubElapsed).2.length = 0 + 1 := by
  constructor
  · decide
  · decide

/-- C1 (amended): under a model that on every invocation returns a valid
`CALL_TOOL` directive naming a registered tool, and a prompt outside the
time-query pattern, `run_with_tools` with `max_tool_calls = N` performs
exactly `N + 2` model calls — `N + 1` loop rounds plus the forced-answer
call — and returns the output of that final forced-answer call (whose input
is the accumulated context with the exhaustion instruction appended). -/
theorem c1_round_budget (year : Nat) (llm : Nat → String → Except String String)
    (userPrompt : String) (tools : List Tool) (systemPrompt : Option String)
    (N : Nat) (elapsed : Nat → String)
    (hnotime : timeQueryMatch userPrompt = false)
    (hllm : ∀ i c, ∃ r nm args t, llm i c = Except.ok r ∧
      parseToolCall r = some (nm, args) ∧ lookupTool tools nm = some t) :
    (runWithTools year llm userPrompt tools systemPrompt N elapsed).2.length = N + 2 ∧
    ∃ c, (runWithTools year llm userPrompt tools systemPrompt N elapsed).2.getLast? =
        some (c ++ exhaustMsg) ∧
      (runWithTools year llm userPrompt tools systemPrompt N elapsed).1 =
        finalizeAnswer (llm (N + 1) (c ++ exhaustMsg)) := by
  have hsc : answerTimeShortcircuit year userPrompt = none := by
    simp [answerTimeShortcircuit, hnotime]
  have key := dispatchLoop_all_tools llm tools elapsed hllm (N + 1) 0
  simp only [Nat.zero_add] at key
  simp only [runWithTools, hsc]
  exact key _

/-- C1 (witness): the amended round budget at `N = 1` with the no-op stub:
three model calls in total. -/
theorem c1_round_budget_witness :
    timeQueryMatch "hi" = false ∧
    (runWithTools 2026 stubLLM "hi" [noopTool] none 1 stubElapsed).2.length = 1 + 2 := by
  refine ⟨by decide, ?_⟩
  have hllm : ∀ i c, ∃ r nm args t, stubLLM i c = Except.ok r ∧
      parseToolCall r = some (nm, args) ∧ lookupTool [noopTool] nm = some t :=
    fun i c => ⟨"CALL_TOOL: noop", "noop", "", noopTool, rfl, by decide, rfl⟩
  exact (c1_round_budget 2026 stubLLM "hi" [noopTool] none 1 stubElapsed (by decide) hllm).1

/-- C3: a prompt matching the time-query pattern is answered directly from
the wall clock (`year` models `datetime.now().year`): the answer is the fixed
sentence containing the year's decimal rendering, and the model callable is
invoked zero times. -/
theorem c3_time_shortcircuit (year : Nat) (llm : Nat → String → Except String String)
    (userPrompt : String) (tools : List Tool) (systemPrompt : Option String)
    (N : Nat) (elapsed : Nat → String)
    (h : timeQueryMatch userPrompt = true) :
    (runWithTools year llm userPrompt tools systemPrompt N elapsed).1 =
      "今年是 " ++ toString year ++ " 年。" ∧
    strContains (runWithTools year llm userPrompt tools systemPrompt N elapsed).1
      (toString year) = true ∧
    (runWithTools year llm userPrompt tools systemPrompt N elapsed).2 = [] := by
  have hsc : answerTimeShortcircuit year userPrompt =
      some ("今年是 " ++ toString year ++ " 年。") := by
    simp [answerTimeShortcircuit, h]
  have h1 : (runWithTools year llm userPrompt tools systemPrompt N elapsed).1 =
      "今年是 " ++ toString year ++ " 年。" := by
    simp [runWithTools, hsc]
  refine ⟨h1, ?_, by simp [runWithTools, hsc]⟩
  rw [h1]
  apply strContains_append_left
  exact strContains_suffix _ _

/-- C3 (witness): the concrete prompt `今年是哪年` with year 2026. -/
theorem c3_time_shortcircuit_witness :
    timeQueryMatch "今年是哪年" = true ∧
    (runWithTools 2026 stubLLM "今年是哪年" [noopTool] none 3 stubElapsed).1 =
      "今年是 " ++ toString 2026 ++ " 年。" ∧
    (runWithTools 2026 stubLLM "今年是哪年" [noopTool] none 3 stubElapsed).2 = [] := by
  have h := c3_time_shortcircuit 2026 stubLLM "今年是哪年" [noopTool] none 3 stubElapsed
    (by decide)
  exact ⟨by decide, h.1, h.2.2⟩

/-- C4: a round whose directive names a tool missing from the registry does
not terminate the turn: the loop recurses with one round consumed and the
`[ToolError]` observation (which contains the literal unknown tool name)
appended, and the next model call's input context contains that name. -/
theorem c4_unknown_tool (llm : Nat → String → Except String String)
    (tools : List Tool) (elapsed : Nat → String) (fuel calls : Nat) (ctx : String)
    (r nm args : String)
    (hr : llm calls ctx = Except.ok r) (hp : parseToolCall r = some (nm, args))
    (hl : lookupTool tools nm = none) :
    dispatchLoop llm tools elapsed (fuel + 1) calls ctx =
      ((dispatchLoop llm tools elapsed fuel (calls + 1) (ctx ++ unknownToolObs nm r)).1,
        ctx :: (dispatchLoop llm tools elapsed fuel (calls + 1) (ctx ++ unknownToolObs nm r)).2) ∧
    strContains (ctx ++ unknownToolObs nm r) nm = true ∧
    ∃ inp, (dispatchLoop llm tools elapsed fuel (calls + 1)
        (ctx ++ unknownToolObs nm r)).2.head? = some inp ∧
      strContains inp nm = true := by
  refine ⟨?_, ?_, ?_⟩
  · simp only [dispatchLoop, hr, hp, hl]
  · apply strContains_append_right
    unfold unknownToolObs
    apply strContains_append_left
    apply strContains_append_left
    apply strContains_append_left
    exact strContains_suffix _ _
  · obtain ⟨ext, hhead⟩ := dispatchLoop_head llm tools elapsed fuel (calls + 1)
      (ctx ++ unknownToolObs nm r)
    refine ⟨_, hhead, ?_⟩
    apply strContains_append_left
    apply strContains_append_right
    unfold unknownToolObs
    apply strContains_append_left
    apply strContains_append_left
    apply strContains_append_left
    exact strContains_suffix _ _

/-- C4 (witness): a directive for the unregistered tool `ghost` against a
registry holding only `noop`, at the last loop round. -/
theorem c4_unknown_tool_witness :
    ghostLLM 0 "hi" = Except.ok "CALL_TOOL: ghost" ∧
    parseToolCall "CALL_TOOL: ghost" = some ("ghost", "") ∧
    lookupTool [noopTool] "ghost" = none ∧
    (dispatchLoop ghostLLM [noopTool] stubElapsed 1 0 "hi" =
      ((dispatchLoop ghostLLM [noopTool] stubElapsed 0 1
          ("hi" ++ unknownToolObs "ghost" "CALL_TOOL: ghost")).1,
        "hi" :: (dispatchLoop ghostLLM [noopTool] stubElapsed 0 1
          ("hi" ++ unknownToolObs "ghost" "CALL_TOOL: ghost")).2) ∧
      strContains ("hi" ++ unknownToolObs "ghost" "CALL_TOOL: ghost") "ghost" = true ∧
      ∃ inp, (dispatchLoop ghostLLM [noopTool] stubElapsed 0 1
          ("hi" ++ unknownToolObs "ghost" "CALL_TOOL: ghost")).2.head? = some inp ∧
        strContains inp "ghost" = true) :=
  ⟨rfl, by decide, rfl,
    c4_unknown_tool ghostLLM [noopTool] stubElapsed 0 0 "hi" "CALL_TOOL: ghost"
      "ghost" "" rfl (by decide) rfl⟩

/-- C10: the time-query pattern is a fixed set of Chinese phrasings
(`今年是哪年` and `当前年份` among them); the English prompt
`what year is it` does not match it, so `run_with_tools` on that prompt
always reaches the model: at least one model call is made. -/
theorem c10_english_prompt_reaches_model :
    timeQueryMatch "what year is it" = false ∧
    timeQueryMatch "今年是哪年" = true ∧
    timeQueryMatch "当前年份" = true ∧
    ∀ (year : Nat) (llm : Nat → String → Except String String) (tools : List Tool)
      (systemPrompt : Option String) (N : Nat) (elapsed : Nat → String),
      1 ≤ (runWithTools year llm "what year is it" tools systemPrompt N elapsed).2.length := by
  refine ⟨by decide, by decide, by decide, ?_⟩
  intro year llm tools systemPrompt N elapsed
  have hsc : answerTimeShortcircuit year "what year is it" = none := by
    simp [answerTimeShortcircuit]
    decide
  simp only [runWithTools, hsc]
  exact dispatchLoop_len_pos llm tools elapsed (N + 1) 0 _

/-- C2 (code-bug evaluation): the Observation block labels the tool result
`Result (truncated):` but embeds it verbatim — for every result string the
block contains the whole result and is at least as long as it (only the
separate log summary applies `[:1000]`). At the concrete 4000-character
result the block is itself at least 4000 characters, so the embedded result
is not bounded to roughly 1000 characters. -/
theorem c2_tool_result_untruncated :
    (∀ nm args res el : String,
      strContains (toolObservation nm args res el) res = true) ∧
    (∀ nm args res el : String,
      res.length ≤ (toolObservation nm args res el).length) ∧
    bigResult.length = 4000 ∧
    4000 ≤ (toolObservation "big" "" bigResult "0.00").length := by
  have hcontains : ∀ nm args res el : String,
      strContains (toolObservation nm args res el) res = true := by
    intro nm args res el
    unfold toolObservation
    apply strContains_append_left
    apply strContains_append_left
    apply strContains_append_left
    exact strContains_suffix _ _
  have hlen : ∀ nm args res el : String,
      res.length ≤ (toolObservation nm args res el).length := by
    intro nm args res el
    simp only [toolObservation, String.length_append]
    omega
  have hbig : bigResult.length = 4000 :=
    (String.length_mk _).trans (List.length_replicate _ _)
  exact ⟨hcontains, hlen, hbig, hbig ▸ hlen "big" "" bigResult "0.00"⟩

/-- C5: the line form extracts `("Foo", "hello world")` from
`CALL_TOOL: Foo hello world`, the JSON form extracts `("Foo", "hello")` from
`CALL_TOOL_JSON: {"tool":"Foo","args":"hello"}`, and whenever the JSON
branch succeeds on a response its result is the parse result — the JSON form
is checked before the line form on every parse. -/
theorem c5_parse_forms_json_first :
    parseToolCall "CALL_TOOL: Foo hello world" = some ("Foo", "hello world") ∧
    parseToolCall "CALL_TOOL_JSON: \x7b\"tool\":\"Foo\",\"args\":\"hello\"\x7d" =
      some ("Foo", "hello") ∧
    ∀ (text nm args : String),
      jsonDirective text.data = some (nm, args) → parseToolCall text = some (nm, args) := by
  refine ⟨by decide, by decide, ?_⟩
  intro text nm args h
  by_cases htext : text = ""
  · subst htext
    simp [show jsonDirective ("" : String).data = none from rfl] at h
  · simp [parseToolCall, htext, h]

/-- C5 (witness): a response carrying both a line-form directive for `Bar`
and a JSON-form directive for `Foo` parses to the JSON form's result. -/
theorem c5_json_priority_witness :
    jsonDirective bothFormsText.data = some ("Foo", "hello") ∧
    parseToolCall bothFormsText = some ("Foo", "hello") :=
  ⟨by decide, c5_parse_forms_json_first.2.2 bothFormsText "Foo" "hello" (by decide)⟩

/-- C6: starting from parallel sequences of equal length, `add` preserves the
equality; when the store holds at least `max_items` records it removes
exactly the record at index 0 from both sequences before appending, and below
capacity it appends without removal. -/
theorem c6_add_eviction (m : Store) (text : String) (meta nowMeta : Json)
    (hlen : m.texts.length = m.metadatas.length) :
    (m.add text meta nowMeta).1.texts.length =
      (m.add text meta nowMeta).1.metadatas.length ∧
    (m.maxItems ≤ m.texts.length →
      (m.add text meta nowMeta).1.texts = m.texts.tail ++ [text] ∧
      (m.add text meta nowMeta).1.metadatas = m.metadatas.tail ++ [pyOr meta nowMeta]) ∧
    (m.texts.length < m.maxItems →
      (m.add text meta nowMeta).1.texts = m.texts ++ [text] ∧
      (m.add text meta nowMeta).1.metadatas = m.metadatas ++ [pyOr meta nowMeta]) := by
  have hpop : popPair m.texts m.metadatas = (m.texts.tail, m.metadatas.tail) := by
    cases hm : m.texts with
    | nil =>
      cases hm2 : m.metadatas with
      | nil => rfl
      | cons b ms =>
        rw [hm, hm2] at hlen
        simp at hlen
    | cons a ts =>
      cases hm2 : m.metadatas with
      | nil =>
        rw [hm, hm2] at hlen
        simp at hlen
      | cons b ms => rfl
  by_cases hcap : m.maxItems ≤ m.texts.length
  · have hcap2 : m.maxItems ≤ m.metadatas.length := hlen ▸ hcap
    refine ⟨?_, fun _ => ⟨?_, ?_⟩, fun hlt => absurd hlt (not_lt.mpr hcap)⟩
    · simp [Store.add, hcap, hcap2, hpop, List.length_tail, hlen]
    · simp [Store.add, hcap, hcap2, hpop]
    · simp [Store.add, hcap, hcap2, hpop]
  · have hcap2 : ¬ m.maxItems ≤ m.metadatas.length := by
      rw [← hlen]
      exact hcap
    refine ⟨?_, fun hc => absurd hc hcap, fun _ => ⟨?_, ?_⟩⟩
    · simp [Store.add, hcap, hcap2, hlen]
    · simp [Store.add, hcap, hcap2]
    · simp [Store.add, hcap, hcap2]

/-- C6 (witness): a two-record store at capacity 2 evicts `"a"` and appends
`"c"`, keeping the sequences parallel. -/
theorem c6_add_eviction_witness :
    demoStore.texts.length = demoStore.metadatas.length ∧
    (demoStore.add "c" Json.null demoTs).1.texts = ["b", "c"] ∧
    (demoStore.add "c" Json.null demoTs).1.metadatas = [Json.null, demoTs] := by
  have h := (c6_add_eviction demoStore "c" Json.null demoTs rfl).2.1 (by decide)
  exact ⟨rfl, h.1.trans rfl, h.2.trans rfl⟩

/-- C7: `persist` followed by a fresh construction over the persisted
document reproduces the texts and metadatas sequences exactly, element for
element and in order (`k` is the capacity read from the environment by the
new process). -/
theorem c7_persist_roundtrip (m : Store) (k : Nat) :
    loadStore (persistDoc m) k = some ⟨m.texts, m.metadatas, k⟩ := by
  have harr : ∀ xs : List Json, pyOr (Json.arr xs) (Json.arr []) = Json.arr xs := by
    intro xs
    cases xs <;> simp [pyOr, jsonTruthy]
  have hmap : ∀ ts : List String, decodeStrList (ts.map Json.str) = some ts := by
    intro ts
    induction ts with
    | nil => rfl
    | cons a t ih => simp [decodeStrList, ih]
  have ht : loadTexts (persistDoc m) = some m.texts := by
    have hget : pyGet [("texts", Json.arr (m.texts.map Json.str)),
        ("metadatas", Json.arr m.metadatas)] "texts" = Json.arr (m.texts.map Json.str) := rfl
    simp [loadTexts, persistDoc, hget, harr, hmap]
  have hm' : loadMetas (persistDoc m) = some m.metadatas := by
    have hget : pyGet [("texts", Json.arr (m.texts.map Json.str)),
        ("metadatas", Json.arr m.metadatas)] "metadatas" = Json.arr m.metadatas := rfl
    simp [loadMetas, persistDoc, hget, harr]
  simp [loadStore, ht, hm']

/-- C8: the embedded `persist` is a total Boolean-returning function (the
`except` swallows every failure): it returns `True` exactly when no statement
fails; on any failure it returns `False` and the store path's content is
untouched; on success the path holds the complete dumped document; and at no
point is anything but the old content or the complete new document visible at
the store path. -/
theorem c8_persist_atomic (m : Store) (fs : PersistFS) (fail : Option PersistFail) :
    ((persistSteps m fs fail).1 = true ↔ fail = none) ∧
    (∀ f, fail = some f → (persistSteps m fs fail).1 = false ∧
      (persistSteps m fs fail).2.target = fs.target) ∧
    (fail = none → (persistSteps m fs fail).1 = true ∧
      (persistSteps m fs fail).2.target = some (persistDoc m)) ∧
    ((persistSteps m fs fail).2.target = fs.target ∨
      (persistSteps m fs fail).2.target = some (persistDoc m)) := by
  cases fail with
  | none => simp [persistSteps]
  | some f => cases f <;> simp [persistSteps]

/-- C8 (witness): a failure while writing the temp file returns `False` and
leaves the (absent) store file absent; the failure-free run returns
`True`. -/
theorem c8_persist_atomic_witness :
    (persistSteps demoStore ⟨none, none⟩ (some PersistFail.writeFail)).1 = false ∧
    (persistSteps demoStore ⟨none, none⟩ (some PersistFail.writeFail)).2.target = none ∧
    (persistSteps demoStore ⟨none, none⟩ none).1 = true := by
  refine ⟨?_, ?_, ?_⟩
  · exact ((c8_persist_atomic demoStore ⟨none, none⟩ (some PersistFail.writeFail)).2.1
      PersistFail.writeFail rfl).1
  · exact ((c8_persist_atomic demoStore ⟨none, none⟩ (some PersistFail.writeFail)).2.1
      PersistFail.writeFail rfl).2
  · exact ((c8_persist_atomic demoStore ⟨none, none⟩ none).2.2.1 rfl).1

theorem pwAttempts_head (goto : Nat → Nat → PWAttempt) (t : Nat) (n idx : Nat) :
    (pwAttempts goto t n idx).2.2.2 = [] ∨
      (pwAttempts goto t n idx).2.2.2.head? = some (t * 2 ^ idx * 1000) := by
  cases n with
  | zero => exact Or.inl rfl
  | succ k =>
    simp only [pwAttempts]
    cases hg : goto idx (t * 2 ^ idx * 1000) with
    | ok s => right; simp
    | timeoutErr msg =>
      rcases hpw : pwAttempts goto t k (idx + 1) with ⟨os, cnt, le, tms⟩
      right
      simp [hpw]
    | err msg =>
      rcases hpw : pwAttempts goto t k (idx + 1) with ⟨os, cnt, le, tms⟩
      right
      simp [hpw]

theorem pwAttempts_chain (goto : Nat → Nat → PWAttempt) (t : Nat) :
    ∀ n idx, List.Chain' (fun a b => b = 2 * a) (pwAttempts goto t n idx).2.2.2 := by
  intro n
  induction n with
  | zero => intro idx; simp [pwAttempts]
  | succ k ih =>
    intro idx
    have hdbl : t * 2 ^ (idx + 1) * 1000 = 2 * (t * 2 ^ idx * 1000) := by
      rw [pow_succ]
      ring
    have hhead := pwAttempts_head goto t k (idx + 1)
    have htail := ih (idx + 1)
    simp only [pwAttempts]
    cases hg : goto idx (t * 2 ^ idx * 1000) with
    | ok s => simp
    | timeoutErr msg =>
      rcases hpw : pwAttempts goto t k (idx + 1) with ⟨os, cnt, le, tms⟩
      rw [hpw] at hhead htail
      simp only at hhead htail
      simp only [List.chain'_cons']
      refine ⟨?_, htail⟩
      intro y hy
      rcases hhead with h0 | h0
      · rw [h0] at hy
        simp at hy
      · rw [h0] at hy
        simp only [Option.mem_def, Option.some.injEq] at hy
        rw [← hy, hdbl]
    | err msg =>
      rcases hpw : pwAttempts goto t k (idx + 1) with ⟨os, cnt, le, tms⟩
      rw [hpw] at hhead htail
      simp only at hhead htail
      simp only [List.chain'_cons']
      refine ⟨?_, htail⟩
      intro y hy
      rcases hhead with h0 | h0
      · rw [h0] at hy
        simp at hy
      · rw [h0] at hy
        simp only [Option.mem_def, Option.some.injEq] at hy
        rw [← hy, hdbl]

theorem pwAttempts_len (goto : Nat → Nat → PWAttempt) (t : Nat) :
    ∀ n idx, (pwAttempts goto t n idx).2.2.2.length ≤ n := by
  intro n
  induction n with
  | zero => intro idx; simp [pwAttempts]
  | succ k ih =>
    intro idx
    have h := ih (idx + 1)
    simp only [pwAttempts]
    cases hg : goto idx (t * 2 ^ idx * 1000) with
    | ok s => simp
    | timeoutErr msg =>
      rcases hpw : pwAttempts goto t k (idx + 1) with ⟨os, cnt, le, tms⟩
      rw [hpw] at h
      simp only at h
      simpa using Nat.succ_le_succ h
    | err msg =>
      rcases hpw : pwAttempts goto t k (idx + 1) with ⟨os, cnt, le, tms⟩
      rw [hpw] at h
      simp only at h
      simpa using Nat.succ_le_succ h

theorem pwAttempts_cnt_pos (goto : Nat → Nat → PWAttempt) (t : Nat) (n idx : Nat)
    (h : 1 ≤ n) : 1 ≤ (pwAttempts goto t n idx).2.1 := by
  cases n with
  | zero => omega
  | succ k =>
    simp only [pwAttempts]
    cases hg : goto idx (t * 2 ^ idx * 1000) with
    | ok s => simp
    | timeoutErr msg =>
      rcases hpw : pwAttempts goto t k (idx + 1) with ⟨os, cnt, le, tms⟩
      simp
    | err msg =>
      rcases hpw : pwAttempts goto t k (idx + 1) with ⟨os, cnt, le, tms⟩
      simp

theorem pwAttempts_all_fail (goto : Nat → Nat → PWAttempt) (t : Nat)
    (hf : ∀ i, pwFailed (goto i (t * 2 ^ i * 1000)) = true) :
    ∀ n idx, (pwAttempts goto t n idx).1 = none := by
  intro n
  induction n with
  | zero => intro idx; rfl
  | succ k ih =>
    intro idx
    have h := ih (idx + 1)
    simp only [pwAttempts]
    cases hg : goto idx (t * 2 ^ idx * 1000) with
    | ok s =>
      have hfi := hf idx
      rw [hg] at hfi
      simp [pwFailed] at hfi
    | timeoutErr msg =>
      rcases hpw : pwAttempts goto t k (idx + 1) with ⟨os, cnt, le, tms⟩
      rw [hpw] at h
      simp only at h
      simpa using h
    | err msg =>
      rcases hpw : pwAttempts goto t k (idx + 1) with ⟨os, cnt, le, tms⟩
      rw [hpw] at h
      simp only at h
      simpa using h

/-- C9: `fetch_rendered_page` doubles the rendering timeout per attempt
starting from `timeout * 1000` milliseconds, makes at most
`max_retries + 1` rendering attempts, reports at least one attempt in every
result, reports the path used in `source` (`"playwright"`, or the fallback's
`"requests"`/`"error"`), and falls back to the plain HTTP GET both when the
rendering backend is unavailable and when every rendering attempt fails. -/
theorem c9_fetch_retry_backoff (env : PWEnv) (req : ReqEnv) (timeout maxRetries : Nat) :
    1 ≤ (fetchRenderedPage env req timeout maxRetries).1.attempts ∧
    List.Chain' (fun a b => b = 2 * a) (fetchRenderedPage env req timeout maxRetries).2 ∧
    ((fetchRenderedPage env req timeout maxRetries).2 = [] ∨
      (fetchRenderedPage env req timeout maxRetries).2.head? = some (timeout * 1000)) ∧
    (fetchRenderedPage env req timeout maxRetries).2.length ≤ maxRetries + 1 ∧
    ((fetchRenderedPage env req timeout maxRetries).1.source = "playwright" ∨
      (fetchRenderedPage env req timeout maxRetries).1.source = reqSource req) ∧
    (∀ msg, env = PWEnv.unavailable msg →
      (fetchRenderedPage env req timeout maxRetries).1.source = reqSource req ∧
      (fetchRenderedPage env req timeout maxRetries).1.attempts = 1) ∧
    (∀ goto, env = PWEnv.available goto →
      (∀ i, pwFailed (goto i (timeout * 2 ^ i * 1000)) = true) →
      (fetchRenderedPage env req timeout maxRetries).1.source = reqSource req) := by
  cases env with
  | unavailable msg =>
    refine ⟨?_, ?_, Or.inl rfl, ?_, Or.inr ?_, fun msg' _ => ⟨?_, ?_⟩,
      fun goto heq => absurd heq (by simp)⟩ <;>
      cases req <;> simp [fetchRenderedPage, requestsFallback, reqSource]
  | available goto =>
    have hchain := pwAttempts_chain goto timeout (maxRetries + 1) 0
    have hhead := pwAttempts_head goto timeout (maxRetries + 1) 0
    have hlen := pwAttempts_len goto timeout (maxRetries + 1) 0
    have hcnt := pwAttempts_cnt_pos goto timeout (maxRetries + 1) 0 (Nat.succ_le_succ (Nat.zero_le _))
    rcases hpw : pwAttempts goto timeout (maxRetries + 1) 0 with ⟨os, cnt, le, tms⟩
    rw [hpw] at hchain hhead hlen hcnt
    simp only at hchain hhead hlen hcnt
    rw [pow_zero, Nat.mul_one] at hhead
    cases os with
    | some s =>
      refine ⟨?_, ?_, ?_, ?_, Or.inl ?_, fun msg heq => absurd heq (by simp), ?_⟩
      · simpa [fetchRenderedPage, hpw] using hcnt
      · simpa [fetchRenderedPage, hpw] using hchain
      · simpa [fetchRenderedPage, hpw] using hhead
      · simpa [fetchRenderedPage, hpw] using hlen
      · simp [fetchRenderedPage, hpw]
      · intro goto' heq hfail
        have hgoto : goto' = goto := by
          injection heq with h'
          exact h'.symm
        subst hgoto
        have hnone := pwAttempts_all_fail goto' timeout hfail (maxRetries + 1) 0
        rw [hpw] at hnone
        simp at hnone
    | none =>
      refine ⟨?_, ?_, ?_, ?_, Or.inr ?_, fun msg heq => absurd heq (by simp), fun _ _ _ => ?_⟩
      · cases req <;> simp [fetchRenderedPage, hpw, requestsFallback]
      · simpa [fetchRenderedPage, hpw] using hchain
      · simpa [fetchRenderedPage, hpw] using hhead
      · simpa [fetchRenderedPage, hpw] using hlen
      · cases req <;> simp [fetchRenderedPage, hpw, requestsFallback, reqSource]
      · cases req <;> simp [fetchRenderedPage, hpw, requestsFallback, reqSource]

/-- C9 (witness): with every rendering attempt timing out and a working HTTP
fallback, the result reports the `requests` path, a positive attempt count
(concretely 4 = three rendering attempts plus the fallback), and the doubled
timeouts 15s, 30s, 60s. -/
theorem c9_fetch_retry_backoff_witness :
    (∀ i, pwFailed ((fun _ _ => PWAttempt.timeoutErr "t") i (15 * 2 ^ i * 1000)) = true) ∧
    (fetchRenderedPage envAllTimeout (ReqEnv.rok "html") 15 2).1.source = "requests" ∧
    1 ≤ (fetchRenderedPage envAllTimeout (ReqEnv.rok "html") 15 2).1.attempts ∧
    (fetchRenderedPage envAllTimeout (ReqEnv.rok "html") 15 2).1.attempts = 4 ∧
    (fetchRenderedPage envAllTimeout (ReqEnv.rok "html") 15 2).2 = [15000, 30000, 60000] := by
  refine ⟨fun i => rfl, ?_, ?_, by decide, by decide⟩
  · exact (c9_fetch_retry_backoff envAllTimeout (ReqEnv.rok "html") 15 2).2.2.2.2.2.2
      (fun _ _ => PWAttempt.timeoutErr "t") rfl (fun i => rfl)
  · exact (c9_fetch_retry_backoff envAllTimeout (ReqEnv.rok "html") 15 2).1
